import Mathlib

/-!
Verification development for the hiqlite repository.

This file shallowly embeds the parts of the code that the checked claims
are about:

* the RocksDB-backed Raft log store (`src/hiqlite/src/store/logs/rocksdb.rs`):
  the big-endian `u64` key encoding, the writer worker (`Append`, `Remove`,
  `Vote`, `Sync` actions), the reader worker (`Logs` action) and the public
  operations `try_get_log_entries`, `append`, `truncate`, `purge`;
* the stream server request dispatch (`src/hiqlite/src/network/api.rs`,
  `handle_socket_concurrent`);
* the client retry-on-leader-change path (`src/hiqlite/src/client.rs`);
* the cluster management handlers (`src/hiqlite/src/network/management.rs`);
* the two cache `get` client implementations
  (`src/hiqlite/src/db_client/cache.rs` and `src/hiqlite/src/client/cache.rs`).

Machine integers (`u64`) are modelled as `Nat`; the byte encoding
`id_to_bin` extracts bytes with division and remainder, so values at or
above `2 ^ 64` wrap exactly as the 8-byte `u64` encoding wraps in a
release build.  Byte strings are `List Nat` with each byte below 256.
External collaborators (the RocksDB engine, the Raft library, the network)
appear as oracle parameters: a fallible storage engine is a function that
may return an error for each write, and a Raft `client_write` outcome is
an `Except` value supplied to the dispatch function.
-/

namespace Hiqlite

/-- Byte strings: lists of bytes, each below 256. -/
abbrev Bytes := List Nat

/-! ### Big-endian u64 key encoding (`id_to_bin` / `bin_to_id`) -/

/-- Embeds `id_to_bin` (rocksdb.rs lines 78-83): the 8-byte big-endian
encoding of a `u64`, most significant byte first. -/
def id_to_bin (id : Nat) : Bytes :=
  [id / 2 ^ 56 % 256, id / 2 ^ 48 % 256, id / 2 ^ 40 % 256, id / 2 ^ 32 % 256,
   id / 2 ^ 24 % 256, id / 2 ^ 16 % 256, id / 2 ^ 8 % 256, id % 256]

/-- Value of a big-endian digit string in base 256, most significant first. -/
def beVal : List Nat → Nat
  | [] => 0
  | b :: bs => b * 256 ^ bs.length + beVal bs

/-- Embeds `bin_to_id` (rocksdb.rs lines 85-88): reads the first 8 bytes of
the buffer as a big-endian `u64`. -/
def bin_to_id (buf : Bytes) : Nat :=
  beVal (buf.take 8)

/-- Strict lexicographic order on byte strings, as used by RocksDB for key
ordering: compare bytewise; a proper prefix sorts before its extensions. -/
def lexLt : Bytes → Bytes → Bool
  | [], [] => false
  | [], _ :: _ => true
  | _ :: _, [] => false
  | a :: as, b :: bs => if a < b then true else if b < a then false else lexLt as bs

theorem beVal_lt_pow {bs : List Nat} (h : ∀ b ∈ bs, b < 256) :
    beVal bs < 256 ^ bs.length := by
  induction bs with
  | nil => simp [beVal]
  | cons b bs ih =>
    have hb : b < 256 := h b (by simp)
    have ih' := ih (fun x hx => h x (by simp [hx]))
    have : b * 256 ^ bs.length + beVal bs < (b + 1) * 256 ^ bs.length := by
      have := ih'
      nlinarith
    calc beVal (b :: bs) = b * 256 ^ bs.length + beVal bs := rfl
      _ < (b + 1) * 256 ^ bs.length := this
      _ ≤ 256 * 256 ^ bs.length := Nat.mul_le_mul_right _ (by omega)
      _ = 256 ^ (b :: bs).length := by simp [pow_succ]; ring

theorem lexLt_iff_beVal : ∀ {xs ys : List Nat}, xs.length = ys.length →
    (∀ b ∈ xs, b < 256) → (∀ b ∈ ys, b < 256) →
    (lexLt xs ys = true ↔ beVal xs < beVal ys)
  | [], [], _, _, _ => by simp [lexLt]
  | [], _ :: _, h, _, _ => by simp at h
  | _ :: _, [], h, _, _ => by simp at h
  | a :: as, b :: bs, h, hx, hy => by
    have hlen : as.length = bs.length := by simpa using h
    have ha : a < 256 := hx a (by simp)
    have hbb : b < 256 := hy b (by simp)
    have hxs : ∀ x ∈ as, x < 256 := fun x hm => hx x (by simp [hm])
    have hys : ∀ x ∈ bs, x < 256 := fun x hm => hy x (by simp [hm])
    have hva := beVal_lt_pow hxs
    have hvb := beVal_lt_pow hys
    have ih := lexLt_iff_beVal hlen hxs hys
    rcases Nat.lt_trichotomy a b with hab | hab | hab
    · have hlt : beVal (a :: as) < beVal (b :: bs) := by
        show a * 256 ^ as.length + beVal as < b * 256 ^ bs.length + beVal bs
        calc a * 256 ^ as.length + beVal as < (a + 1) * 256 ^ as.length := by nlinarith
          _ ≤ b * 256 ^ as.length := Nat.mul_le_mul_right _ (by omega)
          _ = b * 256 ^ bs.length := by rw [hlen]
          _ ≤ b * 256 ^ bs.length + beVal bs := Nat.le_add_right _ _
      simp [lexLt, hab, hlt]
    · subst hab
      have hstep : lexLt (a :: as) (a :: bs) = lexLt as bs := by
        simp [lexLt]
      rw [hstep, ih]
      show beVal as < beVal bs ↔
        a * 256 ^ as.length + beVal as < a * 256 ^ bs.length + beVal bs
      rw [hlen]
      exact ⟨fun hl => Nat.add_lt_add_left hl _, fun hl => Nat.lt_of_add_lt_add_left hl⟩
    · have hnlt : ¬ beVal (a :: as) < beVal (b :: bs) := by
        show ¬ a * 256 ^ as.length + beVal as < b * 256 ^ bs.length + beVal bs
        have : b * 256 ^ bs.length + beVal bs < (b + 1) * 256 ^ bs.length := by nlinarith
        have hle : (b + 1) * 256 ^ bs.length ≤ a * 256 ^ bs.length :=
          Nat.mul_le_mul_right _ (by omega)
        rw [hlen]
        omega
      have : lexLt (a :: as) (b :: bs) = false := by
        simp [lexLt]
        omega
      simp [this, hnlt]

theorem id_to_bin_length (a : Nat) : (id_to_bin a).length = 8 := rfl

theorem id_to_bin_bytes_lt (a : Nat) : ∀ b ∈ id_to_bin a, b < 256 := by
  simp [id_to_bin]
  omega

theorem beVal_id_to_bin (a : Nat) (h : a < 2 ^ 64) : beVal (id_to_bin a) = a := by
  simp only [id_to_bin, beVal, List.length]
  norm_num
  omega

theorem bin_to_id_id_to_bin (a : Nat) (h : a < 2 ^ 64) :
    bin_to_id (id_to_bin a) = a := by
  have : bin_to_id (id_to_bin a) = beVal (id_to_bin a) := rfl
  rw [this, beVal_id_to_bin a h]

theorem lexLt_id_to_bin (a b : Nat) (ha : a < 2 ^ 64) (hb : b < 2 ^ 64) :
    lexLt (id_to_bin a) (id_to_bin b) = true ↔ a < b := by
  rw [lexLt_iff_beVal (by rfl) (id_to_bin_bytes_lt a) (id_to_bin_bytes_lt b),
    beVal_id_to_bin a ha, beVal_id_to_bin b hb]

end Hiqlite

namespace Hiqlite

/-! ### Log store state and the writer worker -/

/-- Non-strict lexicographic order on byte strings. -/
def lexLe (a b : Bytes) : Bool :=
  !lexLt b a

/-- Meta column key `"vote"` (rocksdb.rs line 48). -/
def keyVote : Bytes :=
  "vote".data.map Char.toNat

/-- Meta column key `"last_purged"` (rocksdb.rs line 47). -/
def keyLastPurged : Bytes :=
  "last_purged".data.map Char.toNat

/-- Updates an association list at a key, keeping other bindings. -/
def assocPut (m : List (Bytes × Bytes)) (k v : Bytes) : List (Bytes × Bytes) :=
  match m with
  | [] => [(k, v)]
  | (k', v') :: rest => if k' = k then (k, v) :: rest else (k', v') :: assocPut rest k v

/-- Looks a key up in an association list. -/
def assocGet (m : List (Bytes × Bytes)) (k : Bytes) : Option Bytes :=
  match m with
  | [] => none
  | (k', v') :: rest => if k' = k then some v' else assocGet rest k

/-- Inserts a key/value pair into a key-sorted list, replacing the value if
the key is present (the model of `put_cf` on a RocksDB column family). -/
def sortedPut (logs : List (Bytes × Bytes)) (k v : Bytes) : List (Bytes × Bytes) :=
  match logs with
  | [] => [(k, v)]
  | (k', v') :: rest =>
    if lexLt k k' then (k, v) :: (k', v') :: rest
    else if k' = k then (k, v) :: rest
    else (k', v') :: sortedPut rest k v

/-- Removes every key in the lexicographic range `[lo, hi)` (the model of
`delete_range_cf`, which is end-exclusive). -/
def deleteRange (logs : List (Bytes × Bytes)) (lo hi : Bytes) : List (Bytes × Bytes) :=
  logs.filter (fun kv => lexLt kv.1 lo || !lexLt kv.1 hi)

/-- State of the log store database: the `logs` column family (keys are
8-byte big-endian indices, held in ascending key order) and the `meta`
column family (an association list holding `"vote"` and `"last_purged"`). -/
structure LogsDb where
  logs : List (Bytes × Bytes)
  meta : List (Bytes × Bytes)
deriving DecidableEq, Repr

/-- Storage errors surfaced by the writer worker; `writeLogs e` wraps an
underlying engine error `e` the way `StorageIOError::write_logs` does. -/
inductive StorageErr where
  | writeLogs (e : Nat)
  | voteWrite (e : Nat)
deriving DecidableEq, Repr

/-- Fault oracle for the external RocksDB engine: each write either
succeeds (`none`) or fails with an underlying engine error (`some e`).
The engine itself is an external collaborator of the repository, so its
failure behaviour is a parameter of the model. -/
structure Engine where
  putLogs : Bytes → Bytes → Option Nat
  putMeta : Bytes → Bytes → Option Nat
  delRange : Bytes → Bytes → Option Nat

/-- Engine oracle on which every write succeeds. -/
def Engine.allOk : Engine :=
  ⟨fun _ _ => none, fun _ _ => none, fun _ _ => none⟩

/-- Observable events of the writer worker, in the order it performs them. -/
inductive WEvent where
  | putLogsCf (k v : Bytes)
  | ackAppend (r : Option StorageErr)
  | callbackFlushed
  | delRangeCf (lo hi : Bytes)
  | putMetaCf (k v : Bytes)
  | flushWal
  | ackRemove (r : Option StorageErr)
  | ackVote (r : Option StorageErr)
deriving DecidableEq, Repr

/-- Embeds the write loop of the `Append` arm of `LogStoreWriter::spawn`
(rocksdb.rs lines 104-113): pairs from the streaming sub-channel are
written in arrival order with `put_cf`; on the first failing write the
loop stops with the wrapped `write_logs` error. Returns the new state,
the loop result and the put events performed. -/
def appendLoop (eng : Engine) (db : LogsDb) :
    List (Bytes × Bytes) → LogsDb × Option StorageErr × List WEvent
  | [] => (db, none, [])
  | (k, v) :: rest =>
    match eng.putLogs k v with
    | some e => (db, some (StorageErr.writeLogs e), [])
    | none =>
      let db' := { db with logs := sortedPut db.logs k v }
      let (db'', res, evs) := appendLoop eng db' rest
      (db'', res, WEvent.putLogsCf k v :: evs)

/-- Embeds the full `Append` arm of `LogStoreWriter::spawn` (rocksdb.rs
lines 104-130): run the write loop, send the result on the submitter's
ack channel, and invoke the consensus layer's flushed callback only when
every write succeeded. -/
def processAppend (eng : Engine) (db : LogsDb) (pairs : List (Bytes × Bytes)) :
    LogsDb × List WEvent :=
  let (db', res, evs) := appendLoop eng db pairs
  if res = none then
    (db', evs ++ [WEvent.ackAppend none, WEvent.callbackFlushed])
  else
    (db', evs ++ [WEvent.ackAppend res])

/-- Embeds the `Remove` arm of `LogStoreWriter::spawn` (rocksdb.rs lines
151-178): issue a range deletion over `[lo, hi)`; when it succeeded and a
`last_log` value is supplied, store it under `"last_purged"` in the meta
column; then force a WAL flush and send the result on the ack channel.
Returns the new state, the acknowledged result and the events. -/
def processRemove (eng : Engine) (db : LogsDb) (lo hi : Bytes)
    (lastLog : Option Bytes) : LogsDb × Option StorageErr × List WEvent :=
  let step1 : LogsDb × Option StorageErr × List WEvent :=
    match eng.delRange lo hi with
    | some e => (db, some (StorageErr.writeLogs e), [])
    | none => ({ db with logs := deleteRange db.logs lo hi }, none,
        [WEvent.delRangeCf lo hi])
  let (db1, res1, ev1) := step1
  let step2 : LogsDb × Option StorageErr × List WEvent :=
    match res1, lastLog with
    | none, some v =>
      match eng.putMeta keyLastPurged v with
      | some e => (db1, some (StorageErr.writeLogs e), [])
      | none => ({ db1 with meta := assocPut db1.meta keyLastPurged v }, none,
          [WEvent.putMetaCf keyLastPurged v])
    | _, _ => (db1, res1, [])
  let (db2, res2, ev2) := step2
  (db2, res2, ev1 ++ ev2 ++ [WEvent.flushWal, WEvent.ackRemove res2])

/-- Raft log id as stored by openraft: a term, the id of the leader that
proposed the entry, and the index. -/
structure LogId where
  term : Nat
  node_id : Nat
  index : Nat
deriving DecidableEq, Repr

/-- Stands in for `bincode::serialize` on a `LogId`: a concrete injective
byte encoding. Only its injectivity matters to the claims; the exact
bincode byte layout does not. -/
def serializeLogId (l : LogId) : Bytes :=
  id_to_bin l.term ++ id_to_bin l.node_id ++ id_to_bin l.index

/-- Embeds `LogStoreRocksdb::purge` (rocksdb.rs lines 600-624) combined
with the writer's `Remove` arm: range `[id_to_bin 0, id_to_bin (index + 1))`
and `last_log = some (serialize log_id)`. The returned result is what the
submitter receives on the ack channel (`Ok` iff `none`). -/
def purge (eng : Engine) (db : LogsDb) (logId : LogId) :
    LogsDb × Option StorageErr × List WEvent :=
  processRemove eng db (id_to_bin 0) (id_to_bin (logId.index + 1))
    (some (serializeLogId logId))

/-- Embeds `LogStoreRocksdb::truncate` (rocksdb.rs lines 575-598) combined
with the writer's `Remove` arm: range
`[id_to_bin index, id_to_bin 0xffffffffffffffff)` and no `last_log`. -/
def truncate (eng : Engine) (db : LogsDb) (logId : LogId) :
    LogsDb × Option StorageErr × List WEvent :=
  processRemove eng db (id_to_bin logId.index) (id_to_bin (2 ^ 64 - 1)) none

/-- Well-formed logs column: every key is the 8-byte encoding of a u64
index and keys are strictly ascending (RocksDB iterates keys in order,
and all keys in this column are written through `id_to_bin`). -/
def WfLogs (logs : List (Bytes × Bytes)) : Prop :=
  (∀ kv ∈ logs, ∃ i, i < 2 ^ 64 ∧ kv.1 = id_to_bin i) ∧
    logs.Pairwise (fun a b => lexLt a.1 b.1 = true)

/-- Shorthand for the put event of a key/value pair. -/
def putEvent (kv : Bytes × Bytes) : WEvent :=
  WEvent.putLogsCf kv.1 kv.2

theorem appendLoop_all_ok (eng : Engine) :
    ∀ (pairs : List (Bytes × Bytes)) (db : LogsDb),
      (∀ kv ∈ pairs, eng.putLogs kv.1 kv.2 = none) →
      ∃ db', appendLoop eng db pairs = (db', none, pairs.map putEvent)
  | [], db, _ => ⟨db, rfl⟩
  | (k, v) :: rest, db, h => by
    have hk : eng.putLogs k v = none := h (k, v) (by simp)
    have hrest : ∀ kv ∈ rest, eng.putLogs kv.1 kv.2 = none :=
      fun kv hm => h kv (by simp [hm])
    obtain ⟨db', hdb'⟩ :=
      appendLoop_all_ok eng rest { db with logs := sortedPut db.logs k v } hrest
    refine ⟨db', ?_⟩
    simp [appendLoop, hk, hdb', putEvent]

theorem appendLoop_first_fail (eng : Engine) :
    ∀ (pairs : List (Bytes × Bytes)) (db : LogsDb),
      (∃ kv ∈ pairs, eng.putLogs kv.1 kv.2 ≠ none) →
      ∃ pre kv post e db', pairs = pre ++ kv :: post ∧
        (∀ kv' ∈ pre, eng.putLogs kv'.1 kv'.2 = none) ∧
        eng.putLogs kv.1 kv.2 = some e ∧
        appendLoop eng db pairs =
          (db', some (StorageErr.writeLogs e), pre.map putEvent)
  | [], _, h => by simp at h
  | (k, v) :: rest, db, h => by
    cases hput : eng.putLogs k v with
    | some e =>
      exact ⟨[], (k, v), rest, e, db, by simp, by simp, hput,
        by simp [appendLoop, hput]⟩
    | none =>
      have hrest : ∃ kv ∈ rest, eng.putLogs kv.1 kv.2 ≠ none := by
        rcases h with ⟨kv, hmem, hne⟩
        rcases List.mem_cons.mp hmem with heq | hmem'
        · subst heq; simp [hput] at hne
        · exact ⟨kv, hmem', hne⟩
      obtain ⟨pre, kv, post, e, db', hsplit, hpre, hfail, hloop⟩ :=
        appendLoop_first_fail eng rest { db with logs := sortedPut db.logs k v } hrest
      refine ⟨(k, v) :: pre, kv, post, e, db', by simp [hsplit], ?_, hfail, ?_⟩
      · intro kv' hm
        rcases List.mem_cons.mp hm with heq | hm'
        · subst heq; exact hput
        · exact hpre kv' hm'
      · simp [appendLoop, hput, hloop, putEvent]

/-- C1: for every `Append` action processed by the log-store writer
worker, if every pair on the streaming sub-channel is written
successfully the ack channel receives `Ok` and the flushed callback is
invoked exactly once, after the ack; if a write fails, the ack channel
receives the wrapped `write_logs` error of the first failing pair and the
callback is never invoked. -/
theorem c1_append_ack_then_callback (eng : Engine) (db : LogsDb)
    (pairs : List (Bytes × Bytes)) :
    ((∀ kv ∈ pairs, eng.putLogs kv.1 kv.2 = none) →
      (processAppend eng db pairs).2 =
        pairs.map putEvent ++ [WEvent.ackAppend none, WEvent.callbackFlushed] ∧
      (processAppend eng db pairs).2.count WEvent.callbackFlushed = 1) ∧
    ((∃ kv ∈ pairs, eng.putLogs kv.1 kv.2 ≠ none) →
      ∃ pre kv post e, pairs = pre ++ kv :: post ∧
        (∀ kv' ∈ pre, eng.putLogs kv'.1 kv'.2 = none) ∧
        eng.putLogs kv.1 kv.2 = some e ∧
        (processAppend eng db pairs).2 =
          pre.map putEvent ++ [WEvent.ackAppend (some (StorageErr.writeLogs e))] ∧
        WEvent.callbackFlushed ∉ (processAppend eng db pairs).2) := by
  constructor
  · intro hok
    obtain ⟨db', hloop⟩ := appendLoop_all_ok eng pairs db hok
    have hev : (processAppend eng db pairs).2 =
        pairs.map putEvent ++ [WEvent.ackAppend none, WEvent.callbackFlushed] := by
      simp [processAppend, hloop]
    refine ⟨hev, ?_⟩
    rw [hev, List.count_append]
    have : (pairs.map putEvent).count WEvent.callbackFlushed = 0 := by
      refine List.count_eq_zero.mpr ?_
      intro hmem
      rcases List.mem_map.mp hmem with ⟨kv, _, habs⟩
      simp [putEvent] at habs
    rw [this]
    rfl
  · intro hfail
    obtain ⟨pre, kv, post, e, db', hsplit, hpre, hfirst, hloop⟩ :=
      appendLoop_first_fail eng pairs db hfail
    have hev : (processAppend eng db pairs).2 =
        pre.map putEvent ++ [WEvent.ackAppend (some (StorageErr.writeLogs e))] := by
      simp [processAppend, hloop]
    refine ⟨pre, kv, post, e, hsplit, hpre, hfirst, hev, ?_⟩
    rw [hev]
    intro hmem
    rcases List.mem_append.mp hmem with hm | hm
    · rcases List.mem_map.mp hm with ⟨kv', _, habs⟩
      simp [putEvent] at habs
    · simp at hm

/-- Witness for C1: the all-ok engine on one concrete pair makes the ack
precede the single callback, and an engine whose writes always fail makes
the ack carry the wrapped error with no callback. -/
theorem c1_append_ack_then_callback_witness :
    (processAppend Engine.allOk ⟨[], []⟩ [([0], [1])]).2 =
      [WEvent.putLogsCf [0] [1], WEvent.ackAppend none, WEvent.callbackFlushed] ∧
      (processAppend Engine.allOk ⟨[], []⟩ [([0], [1])]).2.count
        WEvent.callbackFlushed = 1 := by
  have h := (c1_append_ack_then_callback Engine.allOk ⟨[], []⟩ [([0], [1])]).1
    (by intro kv _; rfl)
  simpa [putEvent] using h

theorem assocGet_assocPut (m : List (Bytes × Bytes)) (k v : Bytes) :
    assocGet (assocPut m k v) k = some v := by
  induction m with
  | nil => simp [assocPut, assocGet]
  | cons kv rest ih =>
    by_cases h : kv.1 = k
    · simp [assocPut, assocGet, h]
    · simp [assocPut, assocGet, h, ih]

theorem mem_deleteRange_idx {logs : List (Bytes × Bytes)}
    (hwf : ∀ kv ∈ logs, ∃ i, i < 2 ^ 64 ∧ kv.1 = id_to_bin i)
    {a b : Nat} (ha : a < 2 ^ 64) (hb : b < 2 ^ 64) {kv : Bytes × Bytes}
    (hm : kv ∈ deleteRange logs (id_to_bin a) (id_to_bin b)) :
    kv ∈ logs ∧ (bin_to_id kv.1 < a ∨ b ≤ bin_to_id kv.1) := by
  rcases List.mem_filter.mp hm with ⟨hmem, hcond⟩
  refine ⟨hmem, ?_⟩
  obtain ⟨i, hi, hkey⟩ := hwf kv hmem
  have hdec : bin_to_id kv.1 = i := by rw [hkey]; exact bin_to_id_id_to_bin i hi
  rw [Bool.or_eq_true] at hcond
  rcases hcond with hlt | hge
  · left
    rw [hdec]
    exact (lexLt_id_to_bin i a hi ha).mp (by rw [← hkey]; exact hlt)
  · right
    rw [hdec]
    have hnot : ¬ i < b := by
      intro hcon
      have hlx := (lexLt_id_to_bin i b hi hb).mpr hcon
      rw [← hkey] at hlx
      rw [hlx] at hge
      simp at hge
    omega

/-- C4 counterexample: at `log_id.index = 2^64 - 1` the `u64` computation
`log_id.index + 1` wraps, so the encoded `until` key equals `id_to_bin 0`
and the range deletion is empty; `purge` still acknowledges `Ok` and
updates `last_purged`, but the entry at index `5 ≤ log_id.index` is still
present afterwards. -/
theorem c4_purge_counterexample :
    (purge Engine.allOk ⟨[(id_to_bin 5, [7])], []⟩ ⟨1, 1, 2 ^ 64 - 1⟩).2.1 = none ∧
    (id_to_bin 5, [7]) ∈
      (purge Engine.allOk ⟨[(id_to_bin 5, [7])], []⟩ ⟨1, 1, 2 ^ 64 - 1⟩).1.logs ∧
    bin_to_id (id_to_bin 5) ≤ (2 ^ 64 - 1 : Nat) := by
  refine ⟨by decide, ?_, by decide⟩
  show (id_to_bin 5, ([7] : Bytes)) ∈
    deleteRange [(id_to_bin 5, [7])] (id_to_bin 0) (id_to_bin (2 ^ 64 - 1 + 1))
  decide

/-- C4 (amended): for every `purge(log_id)` call with
`log_id.index + 1 < 2^64` whose ack is `Ok`, every entry with index
`≤ log_id.index` has been removed, the meta column's `last_purged` key
holds the serialized log id, and the single `Remove` action performs the
range deletion, the `last_purged` update, a forced WAL flush and the
acknowledgment in exactly this order. -/
theorem c4_purge_ok (eng : Engine) (db : LogsDb) (logId : LogId)
    (hwf : ∀ kv ∈ db.logs, ∃ i, i < 2 ^ 64 ∧ kv.1 = id_to_bin i)
    (hidx : logId.index + 1 < 2 ^ 64)
    (hok : (purge eng db logId).2.1 = none) :
    (∀ kv ∈ (purge eng db logId).1.logs, logId.index < bin_to_id kv.1) ∧
    assocGet (purge eng db logId).1.meta keyLastPurged =
      some (serializeLogId logId) ∧
    (purge eng db logId).2.2 =
      [WEvent.delRangeCf (id_to_bin 0) (id_to_bin (logId.index + 1)),
       WEvent.putMetaCf keyLastPurged (serializeLogId logId),
       WEvent.flushWal, WEvent.ackRemove none] := by
  cases hdel : eng.delRange (id_to_bin 0) (id_to_bin (logId.index + 1)) with
  | some e =>
    exfalso
    simp [purge, processRemove, hdel] at hok
  | none =>
    cases hput : eng.putMeta keyLastPurged (serializeLogId logId) with
    | some e =>
      exfalso
      simp [purge, processRemove, hdel, hput] at hok
    | none =>
      have hres : purge eng db logId =
          ({ logs := deleteRange db.logs (id_to_bin 0) (id_to_bin (logId.index + 1)),
             meta := assocPut db.meta keyLastPurged (serializeLogId logId) },
           none,
           [WEvent.delRangeCf (id_to_bin 0) (id_to_bin (logId.index + 1)),
            WEvent.putMetaCf keyLastPurged (serializeLogId logId),
            WEvent.flushWal, WEvent.ackRemove none]) := by
        simp [purge, processRemove, hdel, hput]
      refine ⟨?_, ?_, ?_⟩
      · intro kv hm
        rw [hres] at hm
        have := mem_deleteRange_idx hwf (by norm_num) hidx hm
        omega
      · rw [hres]
        exact assocGet_assocPut db.meta keyLastPurged (serializeLogId logId)
      · rw [hres]

/-- Witness for C4 (amended) at a one-entry database: the all-ok engine
purges index 5, the entry disappears, `last_purged` is stored and the
events end with the flush and the `Ok` ack. -/
theorem c4_purge_ok_witness :
    (∀ kv ∈ (purge Engine.allOk ⟨[(id_to_bin 5, [7])], []⟩ ⟨1, 1, 5⟩).1.logs,
      (5 : Nat) < bin_to_id kv.1) ∧
    assocGet (purge Engine.allOk ⟨[(id_to_bin 5, [7])], []⟩ ⟨1, 1, 5⟩).1.meta
      keyLastPurged = some (serializeLogId ⟨1, 1, 5⟩) ∧
    (purge Engine.allOk ⟨[(id_to_bin 5, [7])], []⟩ ⟨1, 1, 5⟩).2.2 =
      [WEvent.delRangeCf (id_to_bin 0) (id_to_bin 6),
       WEvent.putMetaCf keyLastPurged (serializeLogId ⟨1, 1, 5⟩),
       WEvent.flushWal, WEvent.ackRemove none] :=
  c4_purge_ok Engine.allOk ⟨[(id_to_bin 5, [7])], []⟩ ⟨1, 1, 5⟩
    (by
      intro kv hm
      rw [List.mem_singleton] at hm
      exact ⟨5, by norm_num, by rw [hm]⟩)
    (by norm_num) (by decide)

/-- C6 counterexample: `truncate` issues the end-exclusive range deletion
`[id_to_bin log_id.index, id_to_bin (2^64 - 1))`, so an entry stored at
index `2^64 - 1` survives a truncation from index 3 even though its index
is `≥ log_id.index`; the call still acknowledges `Ok`. -/
theorem c6_truncate_counterexample :
    (truncate Engine.allOk ⟨[(id_to_bin (2 ^ 64 - 1), [7])], []⟩ ⟨1, 1, 3⟩).2.1 =
      none ∧
    (id_to_bin (2 ^ 64 - 1), [7]) ∈
      (truncate Engine.allOk ⟨[(id_to_bin (2 ^ 64 - 1), [7])], []⟩ ⟨1, 1, 3⟩).1.logs ∧
    (3 : Nat) ≤ bin_to_id (id_to_bin (2 ^ 64 - 1)) := by
  refine ⟨by decide, ?_, by decide⟩
  show (id_to_bin (2 ^ 64 - 1), ([7] : Bytes)) ∈
    deleteRange [(id_to_bin (2 ^ 64 - 1), [7])] (id_to_bin 3)
      (id_to_bin (2 ^ 64 - 1))
  decide

/-- C6 (amended): for every `truncate(log_id)` call that acknowledges
`Ok`, every log entry with index in `[log_id.index, 2^64 - 1)` is removed
from the logs column (an entry at index `2^64 - 1` itself is the one
exception, since the range deletion end is exclusive), and the meta
column — in particular the stored vote and last-purged id — is left
entirely unchanged. -/
theorem c6_truncate_removes_and_frames (eng : Engine) (db : LogsDb)
    (logId : LogId)
    (hwf : ∀ kv ∈ db.logs, ∃ i, i < 2 ^ 64 ∧ kv.1 = id_to_bin i)
    (hidx : logId.index < 2 ^ 64)
    (hok : (truncate eng db logId).2.1 = none) :
    (∀ kv ∈ (truncate eng db logId).1.logs,
      logId.index ≤ bin_to_id kv.1 → bin_to_id kv.1 = 2 ^ 64 - 1) ∧
    (truncate eng db logId).1.meta = db.meta ∧
    assocGet (truncate eng db logId).1.meta keyVote = assocGet db.meta keyVote ∧
    assocGet (truncate eng db logId).1.meta keyLastPurged =
      assocGet db.meta keyLastPurged := by
  cases hdel : eng.delRange (id_to_bin logId.index) (id_to_bin (2 ^ 64 - 1)) with
  | some e =>
    exfalso
    unfold truncate processRemove at hok
    rw [hdel] at hok
    simp at hok
  | none =>
    have hres : truncate eng db logId =
        ({ logs := deleteRange db.logs (id_to_bin logId.index)
            (id_to_bin (2 ^ 64 - 1)),
           meta := db.meta },
         none,
         [WEvent.delRangeCf (id_to_bin logId.index) (id_to_bin (2 ^ 64 - 1)),
          WEvent.flushWal, WEvent.ackRemove none]) := by
      unfold truncate processRemove
      rw [hdel]
      rfl
    refine ⟨?_, by rw [hres], by rw [hres], by rw [hres]⟩
    intro kv hm hge
    rw [hres] at hm
    have := mem_deleteRange_idx hwf hidx (by norm_num) hm
    obtain ⟨i, hi, hkey⟩ := hwf kv this.1
    have hdec : bin_to_id kv.1 = i := by rw [hkey]; exact bin_to_id_id_to_bin i hi
    omega

/-- Witness for C6 (amended): truncating from index 2 on a database with
one entry at index 3 and a stored vote removes the entry and leaves the
meta column untouched. -/
theorem c6_truncate_removes_and_frames_witness :
    (∀ kv ∈ (truncate Engine.allOk ⟨[(id_to_bin 3, [9])], [(keyVote, [1])]⟩
        ⟨1, 1, 2⟩).1.logs,
      (2 : Nat) ≤ bin_to_id kv.1 → bin_to_id kv.1 = 2 ^ 64 - 1) ∧
    (truncate Engine.allOk ⟨[(id_to_bin 3, [9])], [(keyVote, [1])]⟩
      ⟨1, 1, 2⟩).1.meta = [(keyVote, [1])] ∧
    assocGet (truncate Engine.allOk ⟨[(id_to_bin 3, [9])], [(keyVote, [1])]⟩
      ⟨1, 1, 2⟩).1.meta keyVote = assocGet [(keyVote, [1])] keyVote ∧
    assocGet (truncate Engine.allOk ⟨[(id_to_bin 3, [9])], [(keyVote, [1])]⟩
      ⟨1, 1, 2⟩).1.meta keyLastPurged = assocGet [(keyVote, [1])] keyLastPurged :=
  c6_truncate_removes_and_frames Engine.allOk
    ⟨[(id_to_bin 3, [9])], [(keyVote, [1])]⟩ ⟨1, 1, 2⟩
    (by
      intro kv hm
      rw [List.mem_singleton] at hm
      exact ⟨3, by norm_num, by rw [hm]⟩)
    (by norm_num) (by decide)

/-! ### Reader worker and `try_get_log_entries` -/

/-- Messages emitted by the reader worker on a `Logs` action's ack
channel: an entry, or the end-of-stream marker (the `None` send). -/
inductive LogsMsg where
  | entry (v : Bytes)
  | endOfStream
deriving DecidableEq, Repr

/-- Embeds the emit loop of the `Logs` arm of `LogStoreReader::spawn`
(rocksdb.rs lines 267-285): walk the iterator forward and stop at the
first key whose decoded index is at least `untilIdx`, emitting each
earlier entry. -/
def logsLoop (untilIdx : Nat) : List (Bytes × Bytes) → List LogsMsg
  | [] => []
  | (k, v) :: rest =>
    if untilIdx ≤ bin_to_id k then [] else LogsMsg.entry v :: logsLoop untilIdx rest

/-- Embeds the `Logs` arm of `LogStoreReader::spawn` (rocksdb.rs lines
261-289): the forward iterator positioned at the first key not below
`fromKey` (on the key-sorted logs column this is the `lexLe`-filter), the
emit loop, and the final end-of-stream marker. -/
def logsAction (logs : List (Bytes × Bytes)) (fromKey : Bytes)
    (untilIdx : Nat) : List LogsMsg :=
  logsLoop untilIdx (logs.filter (fun kv => lexLe fromKey kv.1)) ++
    [LogsMsg.endOfStream]

/-- Range bounds of `std::ops::RangeBounds<u64>`. -/
inductive RBound where
  | included (n : Nat)
  | excluded (n : Nat)
  | unbounded
deriving DecidableEq, Repr

/-- A range of `u64` log indices: a start bound and an end bound. -/
structure LogRange where
  lo : RBound
  hi : RBound
deriving DecidableEq, Repr

/-- Start index computed by `try_get_log_entries` (rocksdb.rs lines
445-449); the `u64` computation `*i + 1` of the excluded case wraps
modulo `2 ^ 64`, as in a release build. -/
def startOf : RBound → Nat
  | .included i => i
  | .excluded i => (i + 1) % 2 ^ 64
  | .unbounded => 0

/-- End index computed by `try_get_log_entries` (rocksdb.rs lines
450-454); the `u64` computation `*i + 1` of the included case wraps
modulo `2 ^ 64`, as in a release build; the unbounded case is
`unreachable!()` in the source and is never consulted by the model (the
caller returns `none` first). -/
def untilOf : RBound → Nat
  | .included i => (i + 1) % 2 ^ 64
  | .excluded i => i
  | .unbounded => 0

/-- A range bound holding a `u64` value. -/
def boundU64 : RBound → Prop
  | .included i => i < 2 ^ 64
  | .excluded i => i < 2 ^ 64
  | .unbounded => True

/-- Drains the reader's ack channel the way the client loop of
`try_get_log_entries` does: collect entries until the first `None`. -/
def collectEntries : List LogsMsg → List Bytes
  | [] => []
  | LogsMsg.entry v :: rest => v :: collectEntries rest
  | LogsMsg.endOfStream :: _ => []

/-- Embeds `try_get_log_entries` (rocksdb.rs lines 441-472): compute
`start` and `until` from the range bounds — an unbounded end bound hits
`unreachable!()`, modelled as `none` — then allocate the result vector
with capacity `(until - start) as usize` (line 456): for a reversed
range (`until < start`) the `u64` subtraction underflows, so a debug
build panics at the subtraction and a release build passes a wrapped
huge capacity to `Vec::with_capacity`, which panics; both are modelled
as `none`. Otherwise run the `Logs` action and collect the streamed
entries. -/
def try_get_log_entries (db : LogsDb) (range : LogRange) : Option (List Bytes) :=
  match range.hi with
  | RBound.unbounded => none
  | _ =>
    if untilOf range.hi < startOf range.lo then none
    else
      some (collectEntries
        (logsAction db.logs (id_to_bin (startOf range.lo)) (untilOf range.hi)))

theorem lexLe_id_to_bin (s i : Nat) (hs : s < 2 ^ 64) (hi : i < 2 ^ 64) :
    lexLe (id_to_bin s) (id_to_bin i) = true ↔ s ≤ i := by
  unfold lexLe
  rw [Bool.not_eq_true']
  constructor
  · intro h
    by_contra hcon
    have := (lexLt_id_to_bin i s hi hs).mpr (by omega)
    rw [this] at h
    simp at h
  · intro h
    cases hx : lexLt (id_to_bin i) (id_to_bin s) with
    | false => rfl
    | true =>
      have := (lexLt_id_to_bin i s hi hs).mp hx
      omega

theorem logsLoop_filter {logs : List (Bytes × Bytes)}
    (hwf : ∀ kv ∈ logs, ∃ i, i < 2 ^ 64 ∧ kv.1 = id_to_bin i)
    (hsorted : logs.Pairwise (fun a b => lexLt a.1 b.1 = true))
    {s : Nat} (hs : s < 2 ^ 64) (u : Nat) :
    logsLoop u (logs.filter (fun kv => lexLe (id_to_bin s) kv.1)) =
      (logs.filter (fun kv =>
        decide (s ≤ bin_to_id kv.1) && decide (bin_to_id kv.1 < u))).map
        (fun kv => LogsMsg.entry kv.2) := by
  induction logs with
  | nil => rfl
  | cons kv rest ih =>
    obtain ⟨i, hilt, hkey⟩ := hwf kv (by simp)
    have hdec : bin_to_id kv.1 = i := by rw [hkey]; exact bin_to_id_id_to_bin i hilt
    have hwrest : ∀ kv' ∈ rest, ∃ j, j < 2 ^ 64 ∧ kv'.1 = id_to_bin j :=
      fun kv' hm => hwf kv' (by simp [hm])
    have hsrest : rest.Pairwise (fun a b => lexLt a.1 b.1 = true) :=
      (List.pairwise_cons.mp hsorted).2
    have hhead : ∀ kv' ∈ rest, lexLt kv.1 kv'.1 = true :=
      (List.pairwise_cons.mp hsorted).1
    have ih' := ih hwrest hsrest
    by_cases hle : s ≤ i
    · have hkeep : lexLe (id_to_bin s) kv.1 = true := by
        rw [hkey]; exact (lexLe_id_to_bin s i hs hilt).mpr hle
      rw [List.filter_cons_of_pos (by simp [hkeep])]
      by_cases hlt : i < u
      · have hloop : logsLoop u (kv ::
            rest.filter (fun kv' => lexLe (id_to_bin s) kv'.1)) =
            LogsMsg.entry kv.2 :: logsLoop u
              (rest.filter (fun kv' => lexLe (id_to_bin s) kv'.1)) := by
          show (if u ≤ bin_to_id kv.1 then [] else _) = _
          rw [hdec, if_neg (by omega)]
        rw [hloop, ih',
          List.filter_cons_of_pos (by simp [hdec]; omega)]
        rfl
      · have hloop : logsLoop u (kv ::
            rest.filter (fun kv' => lexLe (id_to_bin s) kv'.1)) = [] := by
          show (if u ≤ bin_to_id kv.1 then [] else _) = []
          rw [hdec, if_pos (by omega)]
        rw [hloop,
          List.filter_cons_of_neg (by simp [hdec]; omega)]
        have hrest0 : rest.filter (fun kv' =>
            decide (s ≤ bin_to_id kv'.1) && decide (bin_to_id kv'.1 < u)) = [] := by
          rw [List.filter_eq_nil_iff]
          intro kv' hm
          obtain ⟨j, hjlt, hjkey⟩ := hwrest kv' hm
          have hdj : bin_to_id kv'.1 = j := by
            rw [hjkey]; exact bin_to_id_id_to_bin j hjlt
          have hij : i < j := by
            have := hhead kv' hm
            rw [hkey, hjkey] at this
            exact (lexLt_id_to_bin i j hilt hjlt).mp this
          simp [hdj]
          omega
        rw [hrest0]
        rfl
    · have hdrop : lexLe (id_to_bin s) kv.1 = false := by
        rw [hkey]
        cases hx : lexLe (id_to_bin s) (id_to_bin i) with
        | false => rfl
        | true => exact absurd ((lexLe_id_to_bin s i hs hilt).mp hx) hle
      rw [List.filter_cons_of_neg (by simp [hdrop]),
        List.filter_cons_of_neg (by simp [hdec]; omega)]
      exact ih'

theorem collectEntries_map_append (l : List (Bytes × Bytes)) :
    collectEntries ((l.map (fun kv => LogsMsg.entry kv.2)) ++
      [LogsMsg.endOfStream]) = l.map Prod.snd := by
  induction l with
  | nil => rfl
  | cons kv rest ih => simp [collectEntries, ih]

/-- C9 counterexample: a bounded end bound does not make
`try_get_log_entries` total — the reversed range `5..3` has an excluded
(bounded) end bound, yet the capacity computation
`(until - start) as usize` underflows and the call panics (modelled as
`none`) in both build profiles. -/
theorem c9_counterexample_reversed_range :
    try_get_log_entries ⟨[], []⟩ ⟨RBound.included 5, RBound.excluded 3⟩ =
      none ∧
    RBound.excluded 3 ≠ RBound.unbounded := by
  exact ⟨rfl, by decide⟩

/-- C9 (amended): an unbounded end bound reaches the `unreachable!()`
branch and panics (modelled as `none`), so a bounded end bound is a
necessary precondition but not a sufficient one: with a bounded end the
function still panics whenever `until < start`, through the `u64`
underflow in the capacity computation `(until - start) as usize`; it is
total exactly for the bounded-end ranges with `start ≤ until`. -/
theorem c9_unbounded_end_unreachable (db : LogsDb) (lo : RBound) :
    try_get_log_entries db ⟨lo, RBound.unbounded⟩ = none ∧
    (∀ hi, hi ≠ RBound.unbounded → untilOf hi < startOf lo →
      try_get_log_entries db ⟨lo, hi⟩ = none) ∧
    (∀ hi, hi ≠ RBound.unbounded → startOf lo ≤ untilOf hi →
      (try_get_log_entries db ⟨lo, hi⟩).isSome = true) := by
  refine ⟨rfl, ?_, ?_⟩
  · intro hi hne hlt
    cases hi with
    | unbounded => exact absurd rfl hne
    | included n =>
      show (if untilOf (RBound.included n) < startOf lo then none
        else some (collectEntries (logsAction db.logs (id_to_bin (startOf lo))
          (untilOf (RBound.included n))))) = none
      rw [if_pos hlt]
    | excluded n =>
      show (if untilOf (RBound.excluded n) < startOf lo then none
        else some (collectEntries (logsAction db.logs (id_to_bin (startOf lo))
          (untilOf (RBound.excluded n))))) = none
      rw [if_pos hlt]
  · intro hi hne hge
    cases hi with
    | unbounded => exact absurd rfl hne
    | included n =>
      show (if untilOf (RBound.included n) < startOf lo then none
        else some (collectEntries (logsAction db.logs (id_to_bin (startOf lo))
          (untilOf (RBound.included n))))).isSome = true
      rw [if_neg (by omega)]
      rfl
    | excluded n =>
      show (if untilOf (RBound.excluded n) < startOf lo then none
        else some (collectEntries (logsAction db.logs (id_to_bin (startOf lo))
          (untilOf (RBound.excluded n))))).isSome = true
      rw [if_neg (by omega)]
      rfl

/-- Witness for C9 (amended): from start 5, an unbounded end panics, the
reversed bounded end `..3` panics on the capacity underflow, and the
forward bounded end `..7` returns a value. -/
theorem c9_unbounded_end_unreachable_witness :
    try_get_log_entries ⟨[], []⟩ ⟨RBound.included 5, RBound.unbounded⟩ =
      none ∧
    try_get_log_entries ⟨[], []⟩ ⟨RBound.included 5, RBound.excluded 3⟩ =
      none ∧
    (try_get_log_entries ⟨[], []⟩
      ⟨RBound.included 5, RBound.excluded 7⟩).isSome = true := by
  have h := c9_unbounded_end_unreachable ⟨[], []⟩ (RBound.included 5)
  exact ⟨h.1, h.2.1 (RBound.excluded 3) (by decide) (by decide),
    h.2.2 (RBound.excluded 7) (by decide) (by decide)⟩

/-- C5 counterexample: for the range `0..=u64::MAX` the claim's formula
`until = e + 1` puts the stored entry at index 0 inside
`[start, until) = [0, 2 ^ 64)`, but the code's `u64` computation
`*i + 1` wraps `until` to 0, so the call returns no entries at all (a
debug build panics at the addition instead). -/
theorem c5_counterexample_included_max :
    try_get_log_entries ⟨[(id_to_bin 0, [9])], []⟩
      ⟨RBound.included 0, RBound.included (2 ^ 64 - 1)⟩ = some [] ∧
    startOf (RBound.included 0) ≤ bin_to_id (id_to_bin 0) ∧
    bin_to_id (id_to_bin 0) < 2 ^ 64 - 1 + 1 := by
  refine ⟨by decide, by decide, by decide⟩

/-- C5 (amended): for every range whose bounds hold u64 values, whose end
bound is bounded, whose computed start and until do not wrap (for an
excluded start `s + 1 < 2 ^ 64`, for an included end `e + 1 < 2 ^ 64`)
and with `start ≤ until`, `try_get_log_entries` returns exactly the
stored entries with index in `[start, until)` — start being the bound for
an included start, one more for an excluded start and 0 for an unbounded
start; until being one more than an included end and the bound itself for
an excluded end — and the reader emits them in ascending index order,
stops at the first key decoding to an index `≥ until`, and then emits the
end-of-stream marker. At an included end (or excluded start) of
`u64::MAX` the `+ 1` wraps and a release build returns fewer entries than
the claim's `[start, e + 1)` (debug panics); for `until < start` the
capacity computation panics. -/
theorem c5_bounded_range_reads (db : LogsDb) (range : LogRange)
    (hwf : ∀ kv ∈ db.logs, ∃ i, i < 2 ^ 64 ∧ kv.1 = id_to_bin i)
    (hsorted : db.logs.Pairwise (fun a b => lexLt a.1 b.1 = true))
    (hhi : range.hi ≠ RBound.unbounded)
    (hlo64 : boundU64 range.lo)
    (hnwlo : ∀ s, range.lo = RBound.excluded s → s + 1 < 2 ^ 64)
    (hnwhi : ∀ e, range.hi = RBound.included e → e + 1 < 2 ^ 64)
    (hle : startOf range.lo ≤ untilOf range.hi) :
    try_get_log_entries db range =
      some ((db.logs.filter (fun kv =>
        decide (startOf range.lo ≤ bin_to_id kv.1) &&
          decide (bin_to_id kv.1 < untilOf range.hi))).map Prod.snd) ∧
    logsAction db.logs (id_to_bin (startOf range.lo)) (untilOf range.hi) =
      ((db.logs.filter (fun kv =>
        decide (startOf range.lo ≤ bin_to_id kv.1) &&
          decide (bin_to_id kv.1 < untilOf range.hi))).map
        (fun kv => LogsMsg.entry kv.2)) ++ [LogsMsg.endOfStream] ∧
    ((db.logs.filter (fun kv =>
        decide (startOf range.lo ≤ bin_to_id kv.1) &&
          decide (bin_to_id kv.1 < untilOf range.hi))).map
        (fun kv => bin_to_id kv.1)).Pairwise (· < ·) ∧
    (∀ s, range.lo = RBound.excluded s → startOf range.lo = s + 1) ∧
    (∀ e, range.hi = RBound.included e → untilOf range.hi = e + 1) := by
  have hs : startOf range.lo < 2 ^ 64 := by
    cases hcase : range.lo with
    | included i =>
      rw [hcase] at hlo64
      exact hlo64
    | excluded s =>
      show (s + 1) % 2 ^ 64 < 2 ^ 64
      exact Nat.mod_lt _ (by norm_num)
    | unbounded =>
      show (0 : Nat) < 2 ^ 64
      norm_num
  have hact : logsAction db.logs (id_to_bin (startOf range.lo))
      (untilOf range.hi) =
      ((db.logs.filter (fun kv =>
        decide (startOf range.lo ≤ bin_to_id kv.1) &&
          decide (bin_to_id kv.1 < untilOf range.hi))).map
        (fun kv => LogsMsg.entry kv.2)) ++ [LogsMsg.endOfStream] := by
    unfold logsAction
    rw [logsLoop_filter hwf hsorted hs]
  have hsortidx : ((db.logs.filter (fun kv =>
      decide (startOf range.lo ≤ bin_to_id kv.1) &&
        decide (bin_to_id kv.1 < untilOf range.hi))).map
      (fun kv => bin_to_id kv.1)).Pairwise (· < ·) := by
    rw [List.pairwise_map]
    refine List.Pairwise.imp_of_mem ?_ (hsorted.filter _)
    intro a b hma hmb hlex
    have hma' := List.mem_of_mem_filter hma
    have hmb' := List.mem_of_mem_filter hmb
    obtain ⟨i, hilt, hikey⟩ := hwf a hma'
    obtain ⟨j, hjlt, hjkey⟩ := hwf b hmb'
    rw [hikey, hjkey] at hlex ⊢
    rw [bin_to_id_id_to_bin i hilt, bin_to_id_id_to_bin j hjlt]
    exact (lexLt_id_to_bin i j hilt hjlt).mp hlex
  have hstartFormula : ∀ s, range.lo = RBound.excluded s →
      startOf range.lo = s + 1 := by
    intro s hcase
    rw [hcase]
    show (s + 1) % 2 ^ 64 = s + 1
    exact Nat.mod_eq_of_lt (hnwlo s hcase)
  have huntilFormula : ∀ e, range.hi = RBound.included e →
      untilOf range.hi = e + 1 := by
    intro e hcase
    rw [hcase]
    show (e + 1) % 2 ^ 64 = e + 1
    exact Nat.mod_eq_of_lt (hnwhi e hcase)
  refine ⟨?_, hact, hsortidx, hstartFormula, huntilFormula⟩
  cases hcase : range.hi with
  | unbounded => exact absurd hcase hhi
  | included n =>
    unfold try_get_log_entries
    rw [hcase]
    simp only []
    rw [← hcase, if_neg (by omega), hact, collectEntries_map_append]
  | excluded n =>
    unfold try_get_log_entries
    rw [hcase]
    simp only []
    rw [← hcase, if_neg (by omega), hact, collectEntries_map_append]

/-- Witness for C5: the range `1..=2` on a three-entry store returns
exactly the entries at indices 1 and 2, in order, and the reader emits
them followed by the end-of-stream marker. -/
theorem c5_bounded_range_reads_witness :
    try_get_log_entries
      ⟨[(id_to_bin 1, [10]), (id_to_bin 2, [20]), (id_to_bin 3, [30])], []⟩
      ⟨RBound.included 1, RBound.included 2⟩ = some [[10], [20]] := by
  have h := (c5_bounded_range_reads
    ⟨[(id_to_bin 1, [10]), (id_to_bin 2, [20]), (id_to_bin 3, [30])], []⟩
    ⟨RBound.included 1, RBound.included 2⟩
    (by
      intro kv hm
      simp at hm
      rcases hm with h1 | h2 | h3
      · exact ⟨1, by norm_num, by rw [h1]⟩
      · exact ⟨2, by norm_num, by rw [h2]⟩
      · exact ⟨3, by norm_num, by rw [h3]⟩)
    (by
      refine List.pairwise_cons.mpr ⟨?_, List.pairwise_cons.mpr ⟨?_, ?_⟩⟩
      · intro kv hm
        simp at hm
        rcases hm with h2 | h3
        · rw [h2]; decide
        · rw [h3]; decide
      · intro kv hm
        simp at hm
        rw [hm]; decide
      · simp)
    (by decide)
    (by norm_num [boundU64])
    (by intro s hcon; exact RBound.noConfusion hcon)
    (by intro e hcon; injection hcon with he; omega)
    (by decide)).1
  rw [h]
  rfl

/-! ### Stream server request dispatch -/

/-- A Raft member node (lib.rs lines 77-81). -/
structure Node where
  id : Nat
  addr_raft : String
  addr_api : String
deriving DecidableEq, Repr

/-- Client-facing error taxonomy (`crate::Error`). Only the variants the
claims inspect are distinguished; `other` stands for the remaining kinds. -/
inductive HError where
  | sqlite (msg : String)
  | cache (msg : String)
  | leaderChange (msg : String)
  | checkIsLeader (leaderId : Option Nat) (leaderNode : Option Node)
  | other (msg : String)
deriving DecidableEq, Repr

/-- SQL query `{sql, params}` as carried by the stream protocol. -/
structure Query where
  sql : String
  params : List Nat
deriving DecidableEq, Repr

/-- A migration `{id, name, content}` as carried by the stream protocol. -/
structure Migration where
  id : Nat
  name : String
  content : Bytes
deriving DecidableEq, Repr

/-- Cache commands: `Get{cache_idx, key}`, `Put{cache_idx, key, value,
expires}`, `Delete{cache_idx, key}` (spec §3, `CacheCommand`). -/
inductive CacheRequest where
  | get (cache_idx : Nat) (key : String)
  | put (cache_idx : Nat) (key : String) (value : Bytes) (expires : Option Int)
  | delete (cache_idx : Nat) (key : String)
deriving DecidableEq, Repr

/-- Cache responses: `Value(optional bytes)` or `Ok` (spec §3). -/
inductive CacheResponse where
  | value (v : Option Bytes)
  | ok
deriving DecidableEq, Repr

/-- Raft apply responses of the SQL state machine (`crate::Response`) as
matched by the dispatch code in api.rs; each variant carries the result
payload the dispatch extracts from it. -/
inductive SqlResponse where
  | execute (result : Except HError Nat)
  | executeReturning (result : Except HError (List Bytes))
  | transaction (result : Except HError (List (Except HError Nat)))
  | batch (result : List (Except HError Nat))
  | migrate (result : Except HError Unit)
  | backup (result : Except HError Unit)
  | empty
deriving Repr

/-- Stream request payload variants (api.rs lines 193-205). -/
inductive ApiStreamRequestPayload where
  | execute (q : Query)
  | executeReturning (q : Query)
  | transaction (qs : List Query)
  | queryConsistent (q : Query)
  | batch (sql : String)
  | migrate (ms : List Migration)
  | backup
  | kv (req : CacheRequest)
deriving DecidableEq, Repr

/-- Stream response payload variants (api.rs lines 214-224). -/
inductive ApiStreamResponsePayload where
  | execute (r : Except HError Nat)
  | executeReturning (r : Except HError (List Bytes))
  | transaction (r : Except HError (List (Except HError Nat)))
  | queryConsistent (r : Except HError (List Bytes))
  | batch (r : List (Except HError Nat))
  | migrate (r : Except HError Unit)
  | backup (r : Except HError Unit)
  | kv (r : CacheResponse)
deriving Repr

/-- Embeds the per-request dispatch of `handle_socket_concurrent`
(api.rs lines 365-553). The outcomes of `raft_db.raft.client_write` and
`raft_cache.raft.client_write` are oracle parameters, with errors already
converted through `Error::from`. `none` models a panicking path: the
`unreachable!()` arms for a mismatched success variant, and the
`QueryConsistent` arm, which is handled on a separate task. The error
arms build exactly the variants the source builds: `Execute` for
Transaction, Batch and Migrate errors (api.rs lines 450-456, 481-487,
508-514) and `Backup` for KV errors (lines 547-551). -/
def handlePayload (p : ApiStreamRequestPayload)
    (dbWrite : Except HError SqlResponse)
    (cacheWrite : Except HError CacheResponse) :
    Option ApiStreamResponsePayload :=
  match p with
  | .execute _ =>
    match dbWrite with
    | .ok (SqlResponse.execute res) => some (.execute res)
    | .ok _ => none
    | .error e => some (.execute (.error e))
  | .executeReturning _ =>
    match dbWrite with
    | .ok (SqlResponse.executeReturning res) => some (.executeReturning res)
    | .ok _ => none
    | .error e => some (.executeReturning (.error e))
  | .transaction _ =>
    match dbWrite with
    | .ok (SqlResponse.transaction res) => some (.transaction res)
    | .ok _ => none
    | .error e => some (.execute (.error e))
  | .queryConsistent _ => none
  | .batch _ =>
    match dbWrite with
    | .ok (SqlResponse.batch res) => some (.batch res)
    | .ok _ => none
    | .error e => some (.execute (.error e))
  | .migrate _ =>
    match dbWrite with
    | .ok (SqlResponse.migrate res) => some (.migrate res)
    | .ok _ => none
    | .error e => some (.execute (.error e))
  | .backup =>
    match dbWrite with
    | .ok (SqlResponse.backup res) => some (.backup res)
    | .ok _ => none
    | .error e => some (.backup (.error e))
  | .kv _ =>
    match cacheWrite with
    | .ok resp => some (.kv resp)
    | .error e => some (.backup (.error e))

/-- Variant tags shared by requests and responses. -/
inductive VariantTag where
  | execute
  | executeReturning
  | transaction
  | queryConsistent
  | batch
  | migrate
  | backup
  | kv
deriving DecidableEq, Repr

/-- Variant of a stream request payload. -/
def requestVariant : ApiStreamRequestPayload → VariantTag
  | .execute _ => .execute
  | .executeReturning _ => .executeReturning
  | .transaction _ => .transaction
  | .queryConsistent _ => .queryConsistent
  | .batch _ => .batch
  | .migrate _ => .migrate
  | .backup => .backup
  | .kv _ => .kv

/-- Variant of a stream response payload. -/
def responseVariant : ApiStreamResponsePayload → VariantTag
  | .execute _ => .execute
  | .executeReturning _ => .executeReturning
  | .transaction _ => .transaction
  | .queryConsistent _ => .queryConsistent
  | .batch _ => .batch
  | .migrate _ => .migrate
  | .backup _ => .backup
  | .kv _ => .kv

/-- C2: evaluating the embedded dispatch at the failing inputs. When the
Raft write for a Transaction, Batch or Migrate request errors, the
response is built with the `Execute` variant, and when a KV write errors
it is built with the `Backup` variant — not the matching variant the
claim requires (and which the client's own match arms expect, treating
the others as `unreachable!()`). Success responses do carry the matching
variant, shown here for Transaction and KV. -/
theorem c2_error_variant_mismatch :
    handlePayload (.transaction []) (.error (HError.other "fwd"))
        (.error (HError.other "fwd")) =
      some (.execute (.error (HError.other "fwd"))) ∧
    handlePayload (.batch "b") (.error (HError.other "fwd"))
        (.error (HError.other "fwd")) =
      some (.execute (.error (HError.other "fwd"))) ∧
    handlePayload (.migrate []) (.error (HError.other "fwd"))
        (.error (HError.other "fwd")) =
      some (.execute (.error (HError.other "fwd"))) ∧
    handlePayload (.kv (CacheRequest.get 0 "k")) (.error (HError.other "fwd"))
        (.error (HError.other "fwd")) =
      some (.backup (.error (HError.other "fwd"))) ∧
    (responseVariant (.execute (.error (HError.other "fwd"))) ≠
        requestVariant (.transaction []) ∧
      responseVariant (.execute (.error (HError.other "fwd"))) ≠
        requestVariant (.batch "b") ∧
      responseVariant (.execute (.error (HError.other "fwd"))) ≠
        requestVariant (.migrate []) ∧
      responseVariant (.backup (.error (HError.other "fwd"))) ≠
        requestVariant (.kv (CacheRequest.get 0 "k"))) ∧
    handlePayload (.transaction []) (.ok (SqlResponse.transaction (.ok [])))
        (.error (HError.other "fwd")) =
      some (.transaction (.ok [])) ∧
    handlePayload (.kv (CacheRequest.get 0 "k")) (.error (HError.other "fwd"))
        (.ok (CacheResponse.value none)) =
      some (.kv (CacheResponse.value none)) := by
  refine ⟨rfl, rfl, rfl, rfl, ⟨?_, ?_, ?_, ?_⟩, rfl, rfl⟩ <;> decide

/-! ### Client leader-change retry -/

/-- Modelled from the spec: `Error::is_forward_to_leader` (error.rs is
not part of the analyzed sources) — the
`CheckIsLeaderError(ForwardToLeader{leader_id, leader_node})` variant is
the authoritative redirect carrying the optional new leader id and node
(spec §7); every other error kind carries no redirect. -/
def is_forward_to_leader : HError → Option (Option Nat × Option Node)
  | HError.checkIsLeader id node => some (id, node)
  | _ => none

/-- Client-side state touched by the leader-switch path: the contents of
the `leader` lock and the `LeaderChange` notifications sent to the stream
manager. -/
structure ClientState where
  leaderId : Nat
  leaderAddr : String
  notices : List (Option Nat × Option Node)
deriving DecidableEq, Repr

/-- Embeds `DbClient::was_leader_update_error` (client.rs lines 525-553):
when the error is a forward-to-leader redirect carrying both a leader id
and a node, and the id differs from the stored leader id, update the
leader under the write lock, notify the stream manager, and report the
change; otherwise leave everything unchanged. -/
def was_leader_update_error (st : ClientState) (err : HError) :
    ClientState × Bool :=
  match is_forward_to_leader err with
  | some (some leaderId, some node) =>
    if st.leaderId ≠ leaderId then
      ({ leaderId := leaderId, leaderAddr := node.addr_api,
         notices := st.notices ++ [(some leaderId, some node)] }, true)
    else (st, false)
  | _ => (st, false)

/-- Embeds the shared retry shape of `DbClient::execute`, `DbClient::txn`
and `DbClient::batch` (client.rs lines 134-144, 208-218 and 262-272):
run the request once; on an error that updated the leader, retry exactly
once, otherwise return the error unmodified. The two attempt outcomes are
oracle parameters; the returned `Nat` counts the attempts made. -/
def retryOnce {α : Type} (st : ClientState)
    (attempt1 attempt2 : Except HError α) :
    ClientState × Except HError α × Nat :=
  match attempt1 with
  | .ok r => (st, .ok r, 1)
  | .error err =>
    let (st', changed) := was_leader_update_error st err
    if changed then (st', attempt2, 2) else (st', .error err, 1)

/-- Embeds `DbClient::execute` (client.rs lines 125-145). -/
def DbClient.execute (st : ClientState) (a1 a2 : Except HError Nat) :
    ClientState × Except HError Nat × Nat :=
  retryOnce st a1 a2

/-- Embeds `DbClient::txn` (client.rs lines 195-219). -/
def DbClient.txn (st : ClientState)
    (a1 a2 : Except HError (List (Except HError Nat))) :
    ClientState × Except HError (List (Except HError Nat)) × Nat :=
  retryOnce st a1 a2

/-- Embeds `DbClient::batch` (client.rs lines 257-273). -/
def DbClient.batch (st : ClientState)
    (a1 a2 : Except HError (List (Except HError Nat))) :
    ClientState × Except HError (List (Except HError Nat)) × Nat :=
  retryOnce st a1 a2

theorem retryOnce_spec {α : Type} (st : ClientState)
    (a1 a2 : Except HError α) :
    (∀ err leaderId node, a1 = .error err →
      is_forward_to_leader err = some (some leaderId, some node) →
      leaderId ≠ st.leaderId →
      retryOnce st a1 a2 =
        ({ leaderId := leaderId, leaderAddr := node.addr_api,
           notices := st.notices ++ [(some leaderId, some node)] }, a2, 2)) ∧
    (∀ err, a1 = .error err →
      (¬ ∃ leaderId node,
        is_forward_to_leader err = some (some leaderId, some node) ∧
          leaderId ≠ st.leaderId) →
      retryOnce st a1 a2 = (st, .error err, 1)) := by
  constructor
  · intro err leaderId node h1 hfwd hne
    subst h1
    have hupd : was_leader_update_error st err =
        ({ leaderId := leaderId, leaderAddr := node.addr_api,
           notices := st.notices ++ [(some leaderId, some node)] }, true) := by
      unfold was_leader_update_error
      rw [hfwd]
      simp [Ne.symm hne]
    simp [retryOnce, hupd]
  · intro err h1 hno
    subst h1
    have hupd : was_leader_update_error st err = (st, false) := by
      unfold was_leader_update_error
      cases hfwd : is_forward_to_leader err with
      | none => rfl
      | some p =>
        rcases p with ⟨oid, onode⟩
        cases oid with
        | none => rfl
        | some i =>
          cases onode with
          | none => rfl
          | some nd =>
            have heq : ¬ st.leaderId ≠ i := by
              intro hne
              exact hno ⟨i, nd, hfwd, fun hc => hne hc.symm⟩
            simp [heq]
    simp [retryOnce, hupd]

/-- C3: for each client write operation (`execute`, `txn`, `batch`): a
first-attempt failure with a forward-to-leader error carrying a leader id
and node that differs from the stored leader id updates the leader
pointer, notifies the stream manager, and retries exactly once (the
result is the second attempt, with 2 attempts made); any error that is
not such a forward-to-leader error is returned unmodified after a single
attempt, with the state untouched. -/
theorem c3_client_retry_once_on_leader_change (st : ClientState)
    (e1 e2 : Except HError Nat)
    (t1 t2 b1 b2 : Except HError (List (Except HError Nat))) :
    ((∀ err leaderId node, e1 = .error err →
      is_forward_to_leader err = some (some leaderId, some node) →
      leaderId ≠ st.leaderId →
      DbClient.execute st e1 e2 =
        ({ leaderId := leaderId, leaderAddr := node.addr_api,
           notices := st.notices ++ [(some leaderId, some node)] }, e2, 2)) ∧
     (∀ err, e1 = .error err →
      (¬ ∃ leaderId node,
        is_forward_to_leader err = some (some leaderId, some node) ∧
          leaderId ≠ st.leaderId) →
      DbClient.execute st e1 e2 = (st, .error err, 1))) ∧
    ((∀ err leaderId node, t1 = .error err →
      is_forward_to_leader err = some (some leaderId, some node) →
      leaderId ≠ st.leaderId →
      DbClient.txn st t1 t2 =
        ({ leaderId := leaderId, leaderAddr := node.addr_api,
           notices := st.notices ++ [(some leaderId, some node)] }, t2, 2)) ∧
     (∀ err, t1 = .error err →
      (¬ ∃ leaderId node,
        is_forward_to_leader err = some (some leaderId, some node) ∧
          leaderId ≠ st.leaderId) →
      DbClient.txn st t1 t2 = (st, .error err, 1))) ∧
    ((∀ err leaderId node, b1 = .error err →
      is_forward_to_leader err = some (some leaderId, some node) →
      leaderId ≠ st.leaderId →
      DbClient.batch st b1 b2 =
        ({ leaderId := leaderId, leaderAddr := node.addr_api,
           notices := st.notices ++ [(some leaderId, some node)] }, b2, 2)) ∧
     (∀ err, b1 = .error err →
      (¬ ∃ leaderId node,
        is_forward_to_leader err = some (some leaderId, some node) ∧
          leaderId ≠ st.leaderId) →
      DbClient.batch st b1 b2 = (st, .error err, 1))) :=
  ⟨retryOnce_spec st e1 e2, retryOnce_spec st t1 t2, retryOnce_spec st b1 b2⟩

/-- Witness for C3: a forward-to-leader error naming leader 2 while the
client stores leader 1 makes `execute` adopt leader 2, notify the stream
manager, and return the second attempt after two tries; a plain SQL error
is returned unmodified after one try. -/
theorem c3_client_retry_once_on_leader_change_witness :
    DbClient.execute ⟨1, "a1", []⟩
      (.error (HError.checkIsLeader (some 2) (some ⟨2, "r2", "a2"⟩))) (.ok 7) =
      (⟨2, "a2", [(some 2, some ⟨2, "r2", "a2"⟩)]⟩, .ok 7, 2) ∧
    DbClient.execute ⟨1, "a1", []⟩ (.error (HError.sqlite "dup")) (.ok 7) =
      (⟨1, "a1", []⟩, .error (HError.sqlite "dup"), 1) := by
  constructor
  · exact (c3_client_retry_once_on_leader_change ⟨1, "a1", []⟩
      (.error (HError.checkIsLeader (some 2) (some ⟨2, "r2", "a2"⟩))) (.ok 7)
      (.ok []) (.ok []) (.ok []) (.ok [])).1.1
      (HError.checkIsLeader (some 2) (some ⟨2, "r2", "a2"⟩)) 2 ⟨2, "r2", "a2"⟩
      rfl rfl (by decide)
  · exact (c3_client_retry_once_on_leader_change ⟨1, "a1", []⟩
      (.error (HError.sqlite "dup")) (.ok 7)
      (.ok []) (.ok []) (.ok []) (.ok [])).1.2
      (HError.sqlite "dup") rfl
      (by rintro ⟨i, nd, hfwd, _⟩; simp [is_forward_to_leader] at hfwd)

/-! ### Cluster management handlers -/

/-- Observable steps of a management handler, in program order. -/
inductive MgmtStep where
  | validateSecret
  | checkInitialized
  | checkLeader
  | deserializeBody
  | lockAcquire
  | raftAddLearner (nodeId : Nat)
  | raftChangeMembership (ids : List Nat)
  | lockRelease
  | respond (ok : Bool)
deriving DecidableEq, Repr

/-- Oracle for the handlers' environment: secret validation, the Raft
instance's initialization/leadership answers, body deserialization and
the outcome of the Raft membership call. -/
structure MgmtCtx where
  secretOk : Bool
  initialized : Bool
  currentLeader : Option Nat
  selfId : Nat
  deserOk : Bool
  raftOk : Bool
  memberIds : List Nat
deriving DecidableEq, Repr

/-- Set-insert of the payload node id into the current member ids, as
`become_member` builds its `BTreeSet` (management.rs lines 97-101). -/
def insertId (n : Nat) (ids : List Nat) : List Nat :=
  if n ∈ ids then ids else ids ++ [n]

/-- Embeds `add_learner` (management.rs lines 25-78) as its step trace:
validate the secret, require an initialized Raft, require this node to be
the leader (otherwise answer with a redirect or a leader-change error),
deserialize the body, then call `raft.add_learner` — with no lock taken
anywhere. -/
def add_learner (ctx : MgmtCtx) (req : Node) : List MgmtStep :=
  MgmtStep.validateSecret ::
    if !ctx.secretOk then [MgmtStep.respond false]
    else MgmtStep.checkInitialized ::
      if !ctx.initialized then [MgmtStep.respond false]
      else match ctx.currentLeader with
        | none => [MgmtStep.respond false]
        | some leaderId =>
          MgmtStep.checkLeader ::
            if leaderId ≠ ctx.selfId then [MgmtStep.respond false]
            else MgmtStep.deserializeBody ::
              if !ctx.deserOk then [MgmtStep.respond false]
              else [MgmtStep.raftAddLearner req.id, MgmtStep.respond ctx.raftOk]

/-- Embeds `become_member` (management.rs lines 81-114) as its step
trace: validate the secret, deserialize the body, take `raft_lock` (the
guard lives to the end of the function), read the membership, call
`raft.change_membership` on the extended member set, respond, and release
the lock when the guard drops. -/
def become_member (ctx : MgmtCtx) (nodeId : Nat) : List MgmtStep :=
  MgmtStep.validateSecret ::
    if !ctx.secretOk then [MgmtStep.respond false]
    else MgmtStep.deserializeBody ::
      if !ctx.deserOk then [MgmtStep.respond false]
      else [MgmtStep.lockAcquire,
        MgmtStep.raftChangeMembership (insertId nodeId ctx.memberIds),
        MgmtStep.respond ctx.raftOk, MgmtStep.lockRelease]

/-- Embeds `change_membership` (management.rs lines 116-127) as its step
trace: validate the secret, deserialize the node-id set, and call
`raft.change_membership` directly — with no lock taken. -/
def change_membership (ctx : MgmtCtx) (ids : List Nat) : List MgmtStep :=
  MgmtStep.validateSecret ::
    if !ctx.secretOk then [MgmtStep.respond false]
    else MgmtStep.deserializeBody ::
      if !ctx.deserOk then [MgmtStep.respond false]
      else [MgmtStep.raftChangeMembership ids, MgmtStep.respond ctx.raftOk]

/-- Raft membership operations among the steps. -/
def isRaftOp : MgmtStep → Bool
  | MgmtStep.raftAddLearner _ => true
  | MgmtStep.raftChangeMembership _ => true
  | _ => false

/-- C8 counterexample: with every environment check succeeding,
`add_learner` and `change_membership` invoke their Raft membership
operations without ever acquiring `raft_lock`. -/
theorem c8_counterexample_no_lock :
    (MgmtStep.raftAddLearner 2 ∈
        add_learner ⟨true, true, some 1, 1, true, true, [1]⟩ ⟨2, "r2", "a2"⟩ ∧
      MgmtStep.lockAcquire ∉
        add_learner ⟨true, true, some 1, 1, true, true, [1]⟩ ⟨2, "r2", "a2"⟩) ∧
    (MgmtStep.raftChangeMembership [1, 2] ∈
        change_membership ⟨true, true, some 1, 1, true, true, [1]⟩ [1, 2] ∧
      MgmtStep.lockAcquire ∉
        change_membership ⟨true, true, some 1, 1, true, true, [1]⟩ [1, 2]) := by
  refine ⟨⟨?_, ?_⟩, ⟨?_, ?_⟩⟩ <;> decide

/-- C8 (amended): only `become_member` serializes its reconfiguration
through `raft_lock` — whenever it reaches its Raft membership operation,
the trace acquires the lock immediately before the operation and releases
it only after the response, so the lock is held for the operation's
duration; `add_learner` and `change_membership` never acquire the lock at
all. -/
theorem c8_lock_only_in_become_member (ctx : MgmtCtx) (req : Node)
    (nodeId : Nat) (ids : List Nat) :
    ((∃ s ∈ become_member ctx nodeId, isRaftOp s = true) →
      become_member ctx nodeId =
        [MgmtStep.validateSecret, MgmtStep.deserializeBody,
         MgmtStep.lockAcquire,
         MgmtStep.raftChangeMembership (insertId nodeId ctx.memberIds),
         MgmtStep.respond ctx.raftOk, MgmtStep.lockRelease]) ∧
    MgmtStep.lockAcquire ∉ add_learner ctx req ∧
    MgmtStep.lockAcquire ∉ change_membership ctx ids := by
  refine ⟨?_, ?_, ?_⟩
  · intro hex
    cases hsec : ctx.secretOk with
    | false =>
      exfalso
      rcases hex with ⟨s, hm, hop⟩
      simp [become_member, hsec] at hm
      rcases hm with h | h <;> subst h <;> simp [isRaftOp] at hop
    | true =>
      cases hdes : ctx.deserOk with
      | false =>
        exfalso
        rcases hex with ⟨s, hm, hop⟩
        simp [become_member, hsec, hdes] at hm
        rcases hm with h | h | h <;> subst h <;> simp [isRaftOp] at hop
      | true => simp [become_member, hsec, hdes]
  · intro hm
    unfold add_learner at hm
    rcases List.mem_cons.mp hm with h | hm
    · exact MgmtStep.noConfusion h
    split at hm
    · simp at hm
    rcases List.mem_cons.mp hm with h | hm
    · exact MgmtStep.noConfusion h
    split at hm
    · simp at hm
    split at hm
    · simp at hm
    rcases List.mem_cons.mp hm with h | hm
    · exact MgmtStep.noConfusion h
    split at hm
    · simp at hm
    rcases List.mem_cons.mp hm with h | hm
    · exact MgmtStep.noConfusion h
    split at hm
    · simp at hm
    · simp at hm
  · intro hm
    unfold change_membership at hm
    rcases List.mem_cons.mp hm with h | hm
    · exact MgmtStep.noConfusion h
    split at hm
    · simp at hm
    rcases List.mem_cons.mp hm with h | hm
    · exact MgmtStep.noConfusion h
    split at hm
    · simp at hm
    · simp at hm

/-- Witness for C8 (amended): with every check passing, `become_member`
brackets its `change_membership` call between the lock acquisition and
release, and the other two handlers run lock-free. -/
theorem c8_lock_only_in_become_member_witness :
    become_member ⟨true, true, some 1, 1, true, true, [1]⟩ 2 =
      [MgmtStep.validateSecret, MgmtStep.deserializeBody,
       MgmtStep.lockAcquire, MgmtStep.raftChangeMembership [1, 2],
       MgmtStep.respond true, MgmtStep.lockRelease] ∧
    MgmtStep.lockAcquire ∉
      add_learner ⟨true, true, some 1, 1, true, true, [1]⟩ ⟨2, "r2", "a2"⟩ ∧
    MgmtStep.lockAcquire ∉
      change_membership ⟨true, true, some 1, 1, true, true, [1]⟩ [1, 2] := by
  have h := c8_lock_only_in_become_member ⟨true, true, some 1, 1, true, true, [1]⟩
    ⟨2, "r2", "a2"⟩ 2 [1, 2]
  refine ⟨?_, h.2.1, h.2.2⟩
  have := h.1 ⟨MgmtStep.raftChangeMembership [1, 2], by decide, by decide⟩
  simpa [insertId] using this

/-! ### Cache get: the two client implementations -/

/-- Association-list lookup with string keys. -/
def lookupStr {β : Type} : List (String × β) → String → Option β
  | [], _ => none
  | (k', v) :: rest, k => if k' = k then some v else lookupStr rest k

/-- Embeds the local path of `DbClient::get` (db_client/cache.rs lines
10-24): read the cache state machine's `kvs` map under the read lock;
a present key's bytes are deserialized (modelled as the identity) and
returned, an absent key yields the `Cache("no value found")` error. -/
def dbClientGet (kvs : List (String × Bytes)) (key : String) :
    Except HError Bytes :=
  match lookupStr kvs key with
  | some v => Except.ok v
  | none => Except.error (HError.cache "no value found")

/-- One cache index's map: `key → {bytes, optional expires-unix-seconds}`
(spec §3). -/
abbrev CacheMap := List (String × Bytes × Option Int)

/-- Modelled from the spec: the cache worker's `Get` handler
(`kv_handler.rs` is not part of the analyzed sources) — "`Get` returns
the optional value, treating an expired entry as absent" (§4.3), where an
entry is expired once the wall clock has advanced past its expiry (§8). -/
def cacheWorkerGet (m : CacheMap) (now : Int) (key : String) : Option Bytes :=
  match lookupStr m key with
  | none => none
  | some (v, none) => some v
  | some (v, some exp) => if exp < now then none else some v

/-- Embeds the local path of `Client::get` (client/cache.rs lines 21-33):
ask the cache worker for the key over the oneshot channel and return the
optional deserialized value (deserialization modelled as the identity). -/
def clientGet (m : CacheMap) (now : Int) (key : String) :
    Except HError (Option Bytes) :=
  Except.ok (cacheWorkerGet m now key)

/-- Formalizes the claim's "produce the same outcome" for the two get
implementations: both succeed with corresponding values (a value `v` on
one side is `some v` on the other), or both fail. -/
def sameOutcome (r1 : Except HError Bytes)
    (r2 : Except HError (Option Bytes)) : Prop :=
  (∃ v, r1 = Except.ok v ∧ r2 = Except.ok (some v)) ∨
  (∃ e1 e2, r1 = Except.error e1 ∧ r2 = Except.error e2)

/-- C10 counterexample: on a key absent from both caches the two
implementations disagree — `DbClient::get` returns the
`Cache("no value found")` error while `Client::get` returns `Ok None`. -/
theorem c10_counterexample_absent_key :
    dbClientGet [] "k" = Except.error (HError.cache "no value found") ∧
    clientGet [] 0 "k" = Except.ok none ∧
    ¬ sameOutcome (dbClientGet [] "k") (clientGet [] 0 "k") := by
  refine ⟨rfl, rfl, ?_⟩
  intro h
  rcases h with ⟨v, h1, _⟩ | ⟨e1, e2, _, h2⟩
  · rw [show dbClientGet [] "k" =
      Except.error (HError.cache "no value found") from rfl] at h1
    exact Except.noConfusion h1
  · rw [show clientGet [] 0 "k" = Except.ok none from rfl] at h2
    exact Except.noConfusion h2

theorem lookupStr_map_none (kvs : List (String × Bytes)) (key : String) :
    lookupStr (kvs.map (fun kv => (kv.1, kv.2, (none : Option Int)))) key =
      (lookupStr kvs key).map (fun v => (v, none)) := by
  induction kvs with
  | nil => rfl
  | cons kv rest ih =>
    by_cases h : kv.1 = key
    · simp [lookupStr, h]
    · simp [lookupStr, h, ih]

/-- C10 (amended): on the local path the two implementations agree on
present keys — both return the stored value — but differ on absent keys:
`DbClient::get` returns the `Cache("no value found")` error while
`Client::get` returns `Ok None` (relating a `DbClient` store to the
`Client` store holding the same bindings with no expiry). -/
theorem c10_local_get_agreement (kvs : List (String × Bytes)) (now : Int)
    (key : String) :
    (∀ v, lookupStr kvs key = some v →
      dbClientGet kvs key = Except.ok v ∧
      clientGet (kvs.map (fun kv => (kv.1, kv.2, none))) now key =
        Except.ok (some v) ∧
      sameOutcome (dbClientGet kvs key)
        (clientGet (kvs.map (fun kv => (kv.1, kv.2, none))) now key)) ∧
    (lookupStr kvs key = none →
      dbClientGet kvs key = Except.error (HError.cache "no value found") ∧
      clientGet (kvs.map (fun kv => (kv.1, kv.2, none))) now key =
        Except.ok none) := by
  constructor
  · intro v hv
    have h1 : dbClientGet kvs key = Except.ok v := by
      unfold dbClientGet
      rw [hv]
    have h2 : clientGet (kvs.map (fun kv => (kv.1, kv.2, none))) now key =
        Except.ok (some v) := by
      unfold clientGet cacheWorkerGet
      rw [lookupStr_map_none, hv]
      rfl
    exact ⟨h1, h2, Or.inl ⟨v, h1, h2⟩⟩
  · intro hv
    constructor
    · unfold dbClientGet
      rw [hv]
    · unfold clientGet cacheWorkerGet
      rw [lookupStr_map_none, hv]
      rfl

/-- Witness for C10 (amended): for a present key both implementations
return the stored bytes. -/
theorem c10_local_get_agreement_witness :
    dbClientGet [("k", [3])] "k" = Except.ok [3] ∧
    clientGet [("k", [3], none)] 5 "k" = Except.ok (some [3]) := by
  have h := (c10_local_get_agreement [("k", [3])] 5 "k").1 [3] (by decide)
  exact ⟨h.1, h.2.1⟩

/-- C7: for all u64 values `a` and `b`, `a < b` iff the 8-byte big-endian
encoding `id_to_bin a` is lexicographically less than `id_to_bin b`; the
key encoding is order-preserving and `bin_to_id (id_to_bin a) = a`. -/
theorem c7_key_encoding_order_preserving (a b : Nat)
    (ha : a < 2 ^ 64) (hb : b < 2 ^ 64) :
    (a < b ↔ lexLt (id_to_bin a) (id_to_bin b) = true) ∧
      bin_to_id (id_to_bin a) = a :=
  ⟨(lexLt_id_to_bin a b ha hb).symm, bin_to_id_id_to_bin a ha⟩

/-- Witness for C7 at the concrete pair `(3, 7)`. -/
theorem c7_key_encoding_order_preserving_witness :
    (3 < 7 ↔ lexLt (id_to_bin 3) (id_to_bin 7) = true) ∧
      bin_to_id (id_to_bin 3) = 3 :=
  c7_key_encoding_order_preserving 3 7 (by norm_num) (by norm_num)

end Hiqlite
